import Mathlib

/-!
Shallow embedding of the task-board ("kanban") and calculator logic of the
repository's single source file.

The board's task state lives in the DOM: each task is a `div` (with its text
span, a `task-text-done` styling class, and a `data-last-column` attribute)
inside one of the three column containers `todoTasks`, `inprogressTasks`,
`doneTasks`.  We embed that state as three lists of `TaskEl`.  The
`localStorage` slot `kanbanTasks` is embedded as an `Option Stored`:
`none` when the key is absent, `some .unparseable` when its string does not
parse as JSON, and `some (.val v)` when it parses to the JSON value `v`.
`JSON.stringify`/`JSON.parse` round-trip flat arrays of string-field objects
exactly, so `saveTasksToLocalStorage` produces the parsed value directly.
-/

namespace Kanban

/-- The three fixed kanban columns (the ids of the column divs). -/
inductive Column where
  | todo
  | inprogress
  | done
deriving DecidableEq, Repr

/-- The DOM id string of a column element. -/
def Column.colId : Column → String
  | .todo => "todo"
  | .inprogress => "inprogress"
  | .done => "done"

/-- A task element as it lives in the DOM: its element id, the text content of
its span, its `data-last-column` attribute, and whether the span carries the
`task-text-done` class. -/
structure TaskEl where
  id : String
  text : String
  lastColumn : String
  doneStyled : Bool
deriving DecidableEq, Repr

/-- The task-holding part of the DOM: the contents of the three task
containers, in document order within each container. -/
structure Dom where
  todoTasks : List TaskEl
  inprogressTasks : List TaskEl
  doneTasks : List TaskEl
deriving DecidableEq, Repr

def Dom.empty : Dom := ⟨[], [], []⟩

/-- The task container of a column (`taskContainers[columnId]`). -/
def Dom.container (d : Dom) : Column → List TaskEl
  | .todo => d.todoTasks
  | .inprogress => d.inprogressTasks
  | .done => d.doneTasks

/-- Replace the contents of one column's task container. -/
def Dom.setContainer (d : Dom) : Column → List TaskEl → Dom
  | .todo, l => { d with todoTasks := l }
  | .inprogress, l => { d with inprogressTasks := l }
  | .done, l => { d with doneTasks := l }

/-- All task elements in document order (`#kanbanContent .task`); the board's
HTML lays the columns out in the order todo, inprogress, done. -/
def Dom.allTasks (d : Dom) : List TaskEl :=
  d.todoTasks ++ d.inprogressTasks ++ d.doneTasks

/-- The element ids of all tasks, in document order. -/
def Dom.allIds (d : Dom) : List String := d.allTasks.map TaskEl.id

/-- The pure list-by-column query: the tasks currently in a column, in append
order (this is what the rendering of a column shows). -/
def listByColumn (d : Dom) (c : Column) : List TaskEl := d.container c

/-- A JSON value, as produced by `JSON.parse`. -/
inductive JVal where
  | str (s : String)
  | num (n : Int)
  | bool (b : Bool)
  | null
  | arr (elems : List JVal)
  | obj (fields : List (String × JVal))

/-- Whether a JSON value is an array (`Array.isArray`). -/
def JVal.isArr : JVal → Bool
  | .arr _ => true
  | _ => false

/-- First-match lookup of an object field. -/
def lookupField : List (String × JVal) → String → Option JVal
  | [], _ => none
  | (k, v) :: rest, name => if k = name then some v else lookupField rest name

/-- JavaScript property access `v[name]`: accessing a property of `null`
throws a `TypeError` (outer `none`); on an object it yields the field when
present and `undefined` otherwise; on any other value it yields `undefined`
(`some none`). -/
def jgetField : JVal → String → Option (Option JVal)
  | .null, _ => none
  | .obj fs, name => some (lookupField fs name)
  | _, _ => some none

/-- The contents of the `kanbanTasks` localStorage slot: either a string that
`JSON.parse` rejects, or one that parses to a JSON value. -/
inductive Stored where
  | unparseable
  | val (v : JVal)

/-- The record `{id, text, status}` that `saveTasksToLocalStorage` pushes for
a task element found inside the column with id `colId`. -/
def taskRecord (colId : String) (t : TaskEl) : JVal :=
  .obj [("id", .str t.id), ("text", .str t.text), ("status", .str colId)]

/-- The array of records for all task elements, in document order, each with
its enclosing column's id as `status`. -/
def boardRecords (d : Dom) : List JVal :=
  d.todoTasks.map (taskRecord "todo")
    ++ d.inprogressTasks.map (taskRecord "inprogress")
    ++ d.doneTasks.map (taskRecord "done")

/-- `saveTasksToLocalStorage`: serialize every task element (with its column
read off from its enclosing `.kanban-column`) and store the JSON array. -/
def saveTasksToLocalStorage (d : Dom) : Stored :=
  .val (.arr (boardRecords d))

/-- Place one validated loaded record `{id := i, text := t, status := s}` on
the board, as `loadTasksFromLocalStorage` does: append to the container for
`s` when it exists, set `data-last-column` to `s`, and add the
`task-text-done` class when `s` is `done`; when no container matches `s`,
fall back to appending to `todo` with `data-last-column` set to `todo`. -/
def placeLoadedTask (d : Dom) (i t s : String) : Dom :=
  if s = "todo" then
    { d with todoTasks := d.todoTasks ++ [⟨i, t, s, false⟩] }
  else if s = "inprogress" then
    { d with inprogressTasks := d.inprogressTasks ++ [⟨i, t, s, false⟩] }
  else if s = "done" then
    { d with doneTasks := d.doneTasks ++ [⟨i, t, s, true⟩] }
  else
    { d with todoTasks := d.todoTasks ++ [⟨i, t, "todo", false⟩] }

/-- What the loader's per-record validation does with one element of the
stored array: property access on `null` throws; an element whose `id`, `text`
and `status` properties are all strings is placed; anything else is skipped
with a warning. -/
inductive RecStep where
  | throw
  | skip
  | place (i t s : String)

/-- The validation `typeof task.id !== 'string' || typeof task.text !==
'string' || typeof task.status !== 'string'` performed on one stored
element. -/
def classifyRecord (v : JVal) : RecStep :=
  match jgetField v "id", jgetField v "text", jgetField v "status" with
  | none, _, _ => .throw
  | some _, none, _ => .throw
  | some _, some _, none => .throw
  | some fid, some ftext, some fstatus =>
    match fid, ftext, fstatus with
    | some (.str i), some (.str t), some (.str s) => .place i t s
    | _, _, _ => .skip

/-- The `tasks.forEach` loop of `loadTasksFromLocalStorage`: each element
whose `id`, `text` and `status` properties are all strings is placed on the
board; an element whose properties are not all strings is skipped with a
warning; property access on a `null` element throws, which aborts the loop
(second component `true`) with the earlier elements already placed. -/
def processRecords : List JVal → Dom → Dom × Bool
  | [], d => (d, false)
  | v :: rest, d =>
    match classifyRecord v with
    | .throw => (d, true)
    | .skip => processRecords rest d
    | .place i t s => processRecords rest (placeLoadedTask d i t s)

/-- `loadTasksFromLocalStorage`, acting on an empty board at startup.  Input
is the current `kanbanTasks` slot; output is the populated board and the slot
afterwards: a missing slot loads nothing; an unparseable slot or a parsed
non-array value is cleared (`localStorage.removeItem`) and loads nothing; an
array is processed record by record, and if the loop throws the slot is
cleared (the catch branch) while the records placed before the throw stay. -/
def loadTasksFromLocalStorage : Option Stored → Dom × Option Stored
  | none => (Dom.empty, none)
  | some .unparseable => (Dom.empty, none)
  | some (.val v) =>
    match v with
    | .arr tasks =>
      let r := processRecords tasks Dom.empty
      if r.2 then (r.1, none) else (r.1, some (.val (.arr tasks)))
    | _ => (Dom.empty, none)

/-- The whole mutable state the kanban code touches: the task elements in the
DOM, the `kanbanTasks` localStorage slot, a count of the
`saveTasksToLocalStorage` calls made so far (so "triggers a persistence
snapshot" is observable), and the id-generation counter. -/
structure St where
  dom : Dom
  storage : Option Stored
  saveCount : Nat
  nextId : Nat

/-- The startup state: empty board, no stored tasks. -/
def St.init : St := ⟨Dom.empty, none, 0, 0⟩

/-- Models `generateId` (`'task-' + Date.now() + '-' + ...random...`): a
fresh opaque id string per call, embedded as `"task-"` followed by the
decimal rendering of a per-call counter. -/
def generateId (n : Nat) : String := "task-" ++ Nat.repr n

/-- JavaScript `String.prototype.trim`: drop leading and trailing
whitespace. -/
def jsTrim (s : String) : String :=
  ⟨((s.data.dropWhile Char.isWhitespace).reverse.dropWhile Char.isWhitespace).reverse⟩

/-- `addTask` with the given task-input field value: trim it; when the result
is empty, only show a transient hint (no board or storage change); otherwise
create a task element with a fresh id and the trimmed text, append it to the
`todo` container with `data-last-column := "todo"`, and save. -/
def addTask (st : St) (input : String) : St × Option TaskEl :=
  let taskTextVal := jsTrim input
  if taskTextVal = "" then (st, none)
  else
    let newTask : TaskEl := ⟨generateId st.nextId, taskTextVal, "todo", false⟩
    let dom := { st.dom with todoTasks := st.dom.todoTasks ++ [newTask] }
    (⟨dom, some (saveTasksToLocalStorage dom), st.saveCount + 1, st.nextId + 1⟩,
      some newTask)

/-- First task element with the given id in a container. -/
def findInList : List TaskEl → String → Option TaskEl
  | [], _ => none
  | t :: rest, i => if t.id = i then some t else findInList rest i

/-- `document.getElementById` over the task elements: the first element with
the given id in document order, together with the column holding it. -/
def findTask (d : Dom) (i : String) : Option (Column × TaskEl) :=
  match findInList d.todoTasks i with
  | some t => some (.todo, t)
  | none =>
    match findInList d.inprogressTasks i with
    | some t => some (.inprogress, t)
    | none =>
      match findInList d.doneTasks i with
      | some t => some (.done, t)
      | none => none

/-- Remove the first task element with the given id (`element.remove()` /
`appendChild` taking the node out of its old parent). -/
def eraseFirst : List TaskEl → String → List TaskEl
  | [], _ => []
  | t :: rest, i => if t.id = i then rest else t :: eraseFirst rest i

/-- Replace the first task element with the given id by `t'` (an in-place
mutation of the found element). -/
def replaceFirst : List TaskEl → String → TaskEl → List TaskEl
  | [], _, _ => []
  | t :: rest, i, t' => if t.id = i then t' :: rest else t :: replaceFirst rest i t'

/-- `deleteTask(taskId)`: when `getElementById` finds the element, remove it
and save; otherwise only warn. -/
def deleteTask (st : St) (i : String) : St × Bool :=
  match findTask st.dom i with
  | none => (st, false)
  | some (c, _) =>
    let dom := st.dom.setContainer c (eraseFirst (st.dom.container c) i)
    (⟨dom, some (saveTasksToLocalStorage dom), st.saveCount + 1, st.nextId⟩, true)

/-- Result of a drop: the dragged id was not found in the DOM, or the drop
was handled, with the flag telling whether `triggerConfetti()` ran. -/
inductive MoveRes where
  | notFound
  | moved (confetti : Bool)
deriving DecidableEq, Repr

/-- The `drop` handler of `initKanban`, dropping the task with id `i` on the
column `target`: when the element exists, append it to the target container
unless it is already there, style its span done/not-done by the target,
trigger confetti exactly when the target is `done` and `data-last-column` is
not `"done"`, update `data-last-column` to the target's id, and save
(unconditionally, also when nothing moved). -/
def moveTask (st : St) (i : String) (target : Column) : St × MoveRes :=
  match findTask st.dom i with
  | none => (st, .notFound)
  | some (c, t) =>
    let confetti : Bool := target == Column.done && t.lastColumn != "done"
    let t' : TaskEl :=
      { t with doneStyled := target == Column.done, lastColumn := target.colId }
    let dom :=
      if c = target then
        st.dom.setContainer c (replaceFirst (st.dom.container c) i t')
      else
        (st.dom.setContainer c (eraseFirst (st.dom.container c) i)).setContainer
          target (st.dom.container target ++ [t'])
    (⟨dom, some (saveTasksToLocalStorage dom), st.saveCount + 1, st.nextId⟩,
      .moved confetti)

/-- Board states reachable from startup-with-empty-storage by the user-level
add / drag-move / delete commands. -/
inductive Reachable : St → Prop where
  | init : Reachable St.init
  | add (st : St) (input : String) : Reachable st → Reachable (addTask st input).1
  | move (st : St) (i : String) (target : Column) :
      Reachable st → Reachable (moveTask st i target).1
  | del (st : St) (i : String) : Reachable st → Reachable (deleteTask st i).1

/-- A task element is consistent with the column that holds it: its
`data-last-column` attribute is that column's id and it carries the
`task-text-done` class exactly when the column is `done`. -/
def ColOk (c : Column) (t : TaskEl) : Prop :=
  t.lastColumn = c.colId ∧ t.doneStyled = (c == Column.done)

/-- Every task element is consistent with its column. -/
def DomInv (d : Dom) : Prop := ∀ c : Column, ∀ t ∈ d.container c, ColOk c t

/-- The state invariant: tasks are consistent with their columns, no element
id occurs twice, and every id on the board was produced by an earlier
`generateId` call. -/
def StInv (st : St) : Prop :=
  DomInv st.dom ∧ st.dom.allIds.Nodup ∧
    ∀ t ∈ st.dom.allTasks, ∃ n, n < st.nextId ∧ t.id = generateId n

/-- Numeric value of a decimal digit character. -/
def charToDigit (c : Char) : Nat := c.toNat - 48

/-- Reference decimal rendering: most significant digit first. -/
def natDigits (n : Nat) : List Char :=
  if n < 10 then [Nat.digitChar n]
  else natDigits (n / 10) ++ [Nat.digitChar (n % 10)]
decreasing_by exact Nat.div_lt_self (by omega) (by omega)

/-- Read a digit string back as a number. -/
def decodeDigits (l : List Char) : Nat :=
  l.foldl (fun acc c => 10 * acc + charToDigit c) 0

end Kanban

namespace Calculator

/-- What `calculateAndUpdateResults` writes into the result span: either a
numeric value (the code then formats it) or the invalid-result error text. -/
inductive CalcDisplay where
  | value (r : ℚ)
  | invalidResult
deriving DecidableEq

/-- `isNaN`, on the exact-rational embedding of the calculator's numbers
(`NaN` is the one value not equal to itself, so over `ℚ` this is never
true). -/
def ratIsNaN (r : ℚ) : Bool := r != r

/-- `isFinite`, on the exact-rational embedding (every rational is
finite). -/
def ratIsFinite (_ : ℚ) : Bool := true

/-- `calculateAndUpdateResults`, with the four input fields given as their
parsed numeric value (`none` models an empty or non-numeric field, which
`parseFloat(...) || 0` turns into 0) and IEEE arithmetic embedded as exact
rational arithmetic. -/
def calculateAndUpdateResults (dIn spIn cpIn bIn : Option ℚ) : CalcDisplay :=
  let D := dIn.getD 0
  let SP := spIn.getD 0
  let Cp := cpIn.getD 0
  let B := bIn.getD 0
  let term1 := SP - Cp + B + 74
  let term2 := D * term1
  let term3 := term2 - 7400
  let term4 := term3 / (120 / 100 : ℚ)
  let finalResult := term4 / 100
  if ratIsNaN finalResult || !ratIsFinite finalResult then .invalidResult
  else .value finalResult

/-- The equation stated in the documentation comment above
`calculateAndUpdateResults`: `((D * (SP - Cp + B + 74) - 7400) / 1.18) /
100`. -/
def docCommentFormula (D SP Cp B : ℚ) : ℚ :=
  ((D * (SP - Cp + B + 74) - 7400) / (118 / 100)) / 100

end Calculator

namespace Kanban

/-! Auxiliary facts about the decimal rendering used by `generateId`. -/

theorem charToDigit_digitChar {d : Nat} (h : d < 10) :
    charToDigit (Nat.digitChar d) = d := by
  interval_cases d <;> decide

theorem toDigitsCore_eq_natDigits (fuel : Nat) :
    ∀ (n : Nat) (ds : List Char), n < 10 ^ (fuel + 1) →
      Nat.toDigitsCore 10 (fuel + 1) n ds = natDigits n ++ ds := by
  induction fuel with
  | zero =>
    intro n ds h
    rw [pow_one] at h
    rw [natDigits]
    simp [Nat.toDigitsCore, Nat.div_eq_of_lt h, Nat.mod_eq_of_lt h, if_pos h]
  | succ fuel ih =>
    intro n ds h
    rw [natDigits]
    by_cases h10 : n < 10
    · simp [Nat.toDigitsCore, Nat.div_eq_of_lt h10, Nat.mod_eq_of_lt h10, if_pos h10]
    · have hd : ¬ n / 10 = 0 := by
        intro hc
        exact h10 (by omega)
      have hlt : n / 10 < 10 ^ (fuel + 1) := by
        rw [Nat.div_lt_iff_lt_mul (by omega)]
        calc n < 10 ^ (fuel + 1 + 1) := h
        _ = 10 ^ (fuel + 1) * 10 := by ring
      rw [if_neg h10]
      show Nat.toDigitsCore 10 (fuel + 1 + 1) n ds = _
      conv_lhs => rw [Nat.toDigitsCore]
      simp only [hd, if_false]
      rw [ih (n / 10) _ hlt, List.append_assoc]
      rfl

theorem toDigits_eq_natDigits (n : Nat) : Nat.toDigits 10 n = natDigits n := by
  have h : n < 10 ^ (n + 1) :=
    lt_of_lt_of_le (Nat.lt_pow_self (by norm_num) n)
      (Nat.pow_le_pow_right (by norm_num) (Nat.le_succ n))
  simpa using toDigitsCore_eq_natDigits n n [] h

theorem decodeDigits_append (l : List Char) (c : Char) :
    decodeDigits (l ++ [c]) = 10 * decodeDigits l + charToDigit c := by
  simp [decodeDigits, List.foldl_append]

theorem decodeDigits_natDigits (n : Nat) : decodeDigits (natDigits n) = n := by
  induction n using Nat.strong_induction_on with
  | _ n ih =>
    rw [natDigits]
    by_cases h : n < 10
    · simp [if_pos h, decodeDigits, charToDigit_digitChar h]
    · rw [if_neg h, decodeDigits_append,
        ih (n / 10) (Nat.div_lt_self (by omega) (by omega)),
        charToDigit_digitChar (Nat.mod_lt n (by omega))]
      omega

theorem natRepr_injective {m n : Nat} (h : Nat.repr m = Nat.repr n) : m = n := by
  have hd : Nat.toDigits 10 m = Nat.toDigits 10 n := congrArg String.data h
  rw [toDigits_eq_natDigits, toDigits_eq_natDigits] at hd
  calc m = decodeDigits (natDigits m) := (decodeDigits_natDigits m).symm
  _ = decodeDigits (natDigits n) := by rw [hd]
  _ = n := decodeDigits_natDigits n

theorem generateId_injective {m n : Nat} (h : generateId m = generateId n) : m = n := by
  have h2 : ("task-" ++ Nat.repr m).data = ("task-" ++ Nat.repr n).data :=
    congrArg String.data h
  rw [String.data_append, String.data_append] at h2
  have h3 : (Nat.repr m).data = (Nat.repr n).data := List.append_cancel_left h2
  exact natRepr_injective (String.ext h3)

end Kanban

namespace Kanban

theorem container_setContainer (d : Dom) (c c' : Column) (l : List TaskEl) :
    (d.setContainer c l).container c' = if c' = c then l else d.container c' := by
  cases c <;> cases c' <;> simp [Dom.setContainer, Dom.container]

theorem allTasks_eq_containers (d : Dom) :
    d.allTasks = d.container .todo ++ d.container .inprogress ++ d.container .done := rfl

theorem findInList_some {l : List TaskEl} {i : String} {t : TaskEl}
    (h : findInList l i = some t) : t ∈ l ∧ t.id = i := by
  induction l with
  | nil => simp [findInList] at h
  | cons x xs ih =>
    rw [findInList] at h
    by_cases hx : x.id = i
    · rw [if_pos hx] at h
      injection h with h
      subst h
      exact ⟨List.mem_cons_self _ _, hx⟩
    · rw [if_neg hx] at h
      rcases ih h with ⟨h1, h2⟩
      exact ⟨List.mem_cons_of_mem _ h1, h2⟩

theorem findInList_none {l : List TaskEl} {i : String} :
    findInList l i = none ↔ i ∉ l.map TaskEl.id := by
  induction l with
  | nil => simp [findInList]
  | cons x xs ih =>
    rw [findInList]
    by_cases hx : x.id = i
    · simp [hx]
    · simp [hx, ih, Ne.symm hx]

theorem eraseFirst_sublist (l : List TaskEl) (i : String) : List.Sublist (eraseFirst l i) l := by
  induction l with
  | nil => simp [eraseFirst]
  | cons x xs ih =>
    rw [eraseFirst]
    by_cases hx : x.id = i
    · rw [if_pos hx]
      exact List.sublist_cons_self x xs
    · rw [if_neg hx]
      exact ih.cons₂ x

theorem not_mem_ids_eraseFirst {l : List TaskEl} {i : String}
    (h : (l.map TaskEl.id).Nodup) : i ∉ (eraseFirst l i).map TaskEl.id := by
  induction l with
  | nil => simp [eraseFirst]
  | cons x xs ih =>
    simp only [List.map_cons, List.nodup_cons] at h
    rw [eraseFirst]
    by_cases hx : x.id = i
    · rw [if_pos hx, ← hx]
      exact h.1
    · rw [if_neg hx]
      simp only [List.map_cons, List.mem_cons]
      rintro (h1 | h1)
      · exact hx h1.symm
      · exact ih h.2 h1

theorem ids_eraseFirst_cons {l : List TaskEl} {i : String} {t : TaskEl}
    (h : findInList l i = some t) :
    (↑(l.map TaskEl.id) : Multiset String) =
      i ::ₘ (↑((eraseFirst l i).map TaskEl.id) : Multiset String) := by
  induction l with
  | nil => simp [findInList] at h
  | cons x xs ih =>
    rw [findInList] at h
    by_cases hx : x.id = i
    · rw [eraseFirst, if_pos hx]
      simp [hx]
    · rw [eraseFirst, if_neg hx] at *
      simp only [List.map_cons, ← Multiset.cons_coe]
      rw [ih h, Multiset.cons_swap]

theorem replaceFirst_self {l : List TaskEl} {i : String} {t : TaskEl}
    (h : findInList l i = some t) : replaceFirst l i t = l := by
  induction l with
  | nil => rfl
  | cons x xs ih =>
    rw [findInList] at h
    rw [replaceFirst]
    by_cases hx : x.id = i
    · rw [if_pos hx] at h
      cases h
      rw [if_pos hx]
    · rw [if_neg hx] at h
      rw [if_neg hx, ih h]

theorem mem_replaceFirst {l : List TaskEl} {i : String} {t' x : TaskEl}
    (h : x ∈ replaceFirst l i t') : x ∈ l ∨ x = t' := by
  induction l with
  | nil => simp [replaceFirst] at h
  | cons y ys ih =>
    rw [replaceFirst] at h
    by_cases hy : y.id = i
    · rw [if_pos hy] at h
      rcases List.mem_cons.mp h with h1 | h1
      · right; exact h1
      · left; exact List.mem_cons_of_mem _ h1
    · rw [if_neg hy] at h
      rcases List.mem_cons.mp h with h1 | h1
      · left; rw [h1]; exact List.mem_cons_self y ys
      · rcases ih h1 with h2 | h2
        · left; exact List.mem_cons_of_mem _ h2
        · right; exact h2

theorem ids_replaceFirst {l : List TaskEl} {i : String} {t' : TaskEl}
    (ht : t'.id = i) : (replaceFirst l i t').map TaskEl.id = l.map TaskEl.id := by
  induction l with
  | nil => rfl
  | cons x xs ih =>
    rw [replaceFirst]
    by_cases hx : x.id = i
    · rw [if_pos hx]
      simp [ht, hx]
    · rw [if_neg hx]
      simp [ih]

theorem findTask_eq_some {d : Dom} {i : String} {c : Column} {t : TaskEl}
    (h : findTask d i = some (c, t)) : t ∈ d.container c ∧ t.id = i := by
  unfold findTask at h
  cases h1 : findInList d.todoTasks i with
  | some t0 =>
    rw [h1] at h
    cases h
    exact findInList_some h1
  | none =>
    rw [h1] at h
    cases h2 : findInList d.inprogressTasks i with
    | some t0 =>
      rw [h2] at h
      cases h
      exact findInList_some h2
    | none =>
      rw [h2] at h
      cases h3 : findInList d.doneTasks i with
      | some t0 =>
        rw [h3] at h
        cases h
        exact findInList_some h3
      | none =>
        rw [h3] at h
        cases h

theorem findTask_eq_none {d : Dom} {i : String} :
    findTask d i = none ↔ i ∉ d.allIds := by
  have : findTask d i = none ↔
      findInList d.todoTasks i = none ∧ findInList d.inprogressTasks i = none ∧
        findInList d.doneTasks i = none := by
    unfold findTask
    cases h1 : findInList d.todoTasks i <;>
      cases h2 : findInList d.inprogressTasks i <;>
      cases h3 : findInList d.doneTasks i <;> simp
  rw [this, findInList_none, findInList_none, findInList_none]
  simp [Dom.allIds, Dom.allTasks, List.mem_append, or_imp]

end Kanban

namespace Kanban

theorem findTask_findInList {d : Dom} {i : String} {c : Column} {t : TaskEl}
    (h : findTask d i = some (c, t)) : findInList (d.container c) i = some t := by
  unfold findTask at h
  cases h1 : findInList d.todoTasks i with
  | some t0 =>
    rw [h1] at h
    cases h
    exact h1
  | none =>
    rw [h1] at h
    cases h2 : findInList d.inprogressTasks i with
    | some t0 =>
      rw [h2] at h
      cases h
      exact h2
    | none =>
      rw [h2] at h
      cases h3 : findInList d.doneTasks i with
      | some t0 =>
        rw [h3] at h
        cases h
        exact h3
      | none =>
        rw [h3] at h
        cases h

theorem mem_allTasks {d : Dom} {t : TaskEl} :
    t ∈ d.allTasks ↔ ∃ c, t ∈ d.container c := by
  simp only [Dom.allTasks, List.mem_append]
  constructor
  · rintro ((h | h) | h)
    exacts [⟨.todo, h⟩, ⟨.inprogress, h⟩, ⟨.done, h⟩]
  · rintro ⟨c, h⟩
    cases c
    · exact Or.inl (Or.inl h)
    · exact Or.inl (Or.inr h)
    · exact Or.inr h

theorem allIds_eq (d : Dom) :
    d.allIds = d.todoTasks.map TaskEl.id ++ d.inprogressTasks.map TaskEl.id
      ++ d.doneTasks.map TaskEl.id := by
  simp [Dom.allIds, Dom.allTasks]

theorem allIds_setContainer {d : Dom} {c : Column} {l : List TaskEl}
    (hl : l.map TaskEl.id = (d.container c).map TaskEl.id) :
    (d.setContainer c l).allIds = d.allIds := by
  cases c <;>
    simp only [Dom.setContainer, Dom.container, allIds_eq] at hl ⊢ <;>
    rw [hl]

theorem generateId_fresh {st : St} (h : StInv st) : generateId st.nextId ∉ st.dom.allIds := by
  intro hmem
  rcases List.mem_map.mp hmem with ⟨t, ht, hid⟩
  rcases h.2.2 t ht with ⟨n, hn, hg⟩
  have : n = st.nextId := generateId_injective (by rw [← hg, hid])
  omega

theorem stInv_init : StInv St.init := by
  refine ⟨fun c t ht => ?_, by simp [St.init, Dom.allIds, Dom.allTasks, Dom.empty], ?_⟩
  · cases c <;> simp [St.init, Dom.empty, Dom.container] at ht
  · intro t ht
    simp [St.init, Dom.empty, Dom.allTasks] at ht

theorem stInv_addTask {st : St} (h : StInv st) (input : String) :
    StInv (addTask st input).1 := by
  by_cases he : jsTrim input = ""
  · simpa [addTask, he] using h
  · have hfresh := generateId_fresh h
    simp only [addTask, he, if_false]
    refine ⟨fun c t ht => ?_, ?_, fun t ht => ?_⟩
    · cases c
      · rcases List.mem_append.mp ht with h1 | h1
        · exact h.1 .todo t h1
        · rcases List.mem_singleton.mp h1 with rfl
          exact ⟨rfl, rfl⟩
      · exact h.1 .inprogress t ht
      · exact h.1 .done t ht
    · have hperm : (Dom.allIds
          { st.dom with todoTasks := st.dom.todoTasks ++ [⟨generateId st.nextId, jsTrim input, "todo", false⟩] }).Perm
          (generateId st.nextId :: st.dom.allIds) := by
        rw [allIds_eq, allIds_eq]
        simp only [List.map_append]
        exact ((List.perm_append_singleton _ _).append_right _).append_right _
      exact hperm.nodup_iff.mpr (List.nodup_cons.mpr ⟨hfresh, h.2.1⟩)
    · have hall : ∀ t ∈ st.dom.allTasks, ∃ n, n < st.nextId + 1 ∧ t.id = generateId n := by
        intro t ht
        rcases h.2.2 t ht with ⟨n, hn, hg⟩
        exact ⟨n, by omega, hg⟩
      simp only [Dom.allTasks, List.mem_append, List.mem_singleton] at ht
      rcases ht with ((h1 | rfl) | h1) | h1
      · exact hall t (List.mem_append.mpr (Or.inl (List.mem_append.mpr (Or.inl h1))))
      · exact ⟨st.nextId, Nat.lt_succ_self _, rfl⟩
      · exact hall t (List.mem_append.mpr (Or.inl (List.mem_append.mpr (Or.inr h1))))
      · exact hall t (List.mem_append.mpr (Or.inr h1))

end Kanban

namespace Kanban

theorem allTasks_erase_sublist (d : Dom) (c : Column) (i : String) :
    List.Sublist (d.setContainer c (eraseFirst (d.container c) i)).allTasks d.allTasks := by
  cases c
  · exact ((eraseFirst_sublist _ _).append (List.Sublist.refl _)).append (List.Sublist.refl _)
  · exact ((List.Sublist.refl _).append (eraseFirst_sublist _ _)).append (List.Sublist.refl _)
  · exact (List.Sublist.refl _).append (eraseFirst_sublist _ _)

theorem stInv_deleteTask {st : St} (h : StInv st) (i : String) :
    StInv (deleteTask st i).1 := by
  unfold deleteTask
  cases hf : findTask st.dom i with
  | none => exact h
  | some ct =>
    obtain ⟨c, t⟩ := ct
    refine ⟨fun col t' ht' => ?_, ?_, fun t' ht' => ?_⟩
    · rw [container_setContainer] at ht'
      by_cases hcc : col = c
      · subst hcc
        rw [if_pos rfl] at ht'
        exact h.1 col t' ((eraseFirst_sublist _ _).subset ht')
      · rw [if_neg hcc] at ht'
        exact h.1 col t' ht'
    · exact List.Nodup.sublist (List.Sublist.map _ (allTasks_erase_sublist st.dom c i)) h.2.1
    · rcases h.2.2 t' ((allTasks_erase_sublist st.dom c i).subset ht') with ⟨n, hn, hg⟩
      exact ⟨n, hn, hg⟩

theorem move_allIds_eq {d : Dom} {c target : Column} {i : String} {t t' : TaskEl}
    (hct : ¬ c = target) (hfind : findInList (d.container c) i = some t) (ht' : t'.id = i) :
    (↑(((d.setContainer c (eraseFirst (d.container c) i)).setContainer target
        (d.container target ++ [t'])).allIds) : Multiset String) =
      (↑d.allIds : Multiset String) := by
  have hA := ids_eraseFirst_cons hfind
  cases c <;> cases target <;> first
  | exact absurd rfl hct
  | (simp only [Dom.setContainer, Dom.container, allIds_eq, List.map_append, List.map_cons,
      List.map_nil, ht', ← Multiset.coe_add, Multiset.coe_singleton] at hA ⊢
     rw [hA, ← Multiset.singleton_add]
     abel)

end Kanban

namespace Kanban

theorem stInv_moveTask {st : St} (h : StInv st) (i : String) (target : Column) :
    StInv (moveTask st i target).1 := by
  unfold moveTask
  cases hf : findTask st.dom i with
  | none => exact h
  | some ct =>
    obtain ⟨c, t⟩ := ct
    have hfind := findTask_findInList hf
    have hti : t.id = i := (findInList_some hfind).2
    have htc : t ∈ st.dom.container c := (findInList_some hfind).1
    dsimp only
    by_cases hct : c = target
    · subst hct
      rw [if_pos rfl]
      refine ⟨fun col t' ht' => ?_, ?_, fun t' ht' => ?_⟩
      · rw [container_setContainer] at ht'
        by_cases hcc : col = c
        · subst hcc
          rw [if_pos rfl] at ht'
          rcases mem_replaceFirst ht' with h1 | rfl
          · exact h.1 col t' h1
          · exact ⟨rfl, rfl⟩
        · rw [if_neg hcc] at ht'
          exact h.1 col t' ht'
      · dsimp only
        have hmid : (⟨t.id, t.text, c.colId, c == Column.done⟩ : TaskEl).id = i := hti
        rw [allIds_setContainer (ids_replaceFirst hmid)]
        exact h.2.1
      · rcases mem_allTasks.mp ht' with ⟨col, hcol⟩
        rw [container_setContainer] at hcol
        by_cases hcc : col = c
        · subst hcc
          rw [if_pos rfl] at hcol
          rcases mem_replaceFirst hcol with h1 | rfl
          · exact h.2.2 t' (mem_allTasks.mpr ⟨col, h1⟩)
          · exact h.2.2 t (mem_allTasks.mpr ⟨col, htc⟩)
        · rw [if_neg hcc] at hcol
          exact h.2.2 t' (mem_allTasks.mpr ⟨col, hcol⟩)
    · rw [if_neg hct]
      refine ⟨fun col t' ht' => ?_, ?_, fun t' ht' => ?_⟩
      · rw [container_setContainer] at ht'
        by_cases hc1 : col = target
        · subst hc1
          rw [if_pos rfl] at ht'
          rcases List.mem_append.mp ht' with h1 | h1
          · exact h.1 col t' h1
          · rcases List.mem_singleton.mp h1 with rfl
            exact ⟨rfl, rfl⟩
        · rw [if_neg hc1, container_setContainer] at ht'
          by_cases hc2 : col = c
          · subst hc2
            rw [if_pos rfl] at ht'
            exact h.1 col t' ((eraseFirst_sublist _ _).subset ht')
          · rw [if_neg hc2] at ht'
            exact h.1 col t' ht'
      · dsimp only
        have hmid : (⟨t.id, t.text, target.colId, target == Column.done⟩ : TaskEl).id = i := hti
        rw [← Multiset.coe_nodup, move_allIds_eq hct hfind hmid, Multiset.coe_nodup]
        exact h.2.1
      · rcases mem_allTasks.mp ht' with ⟨col, hcol⟩
        rw [container_setContainer] at hcol
        by_cases hc1 : col = target
        · subst hc1
          rw [if_pos rfl] at hcol
          rcases List.mem_append.mp hcol with h1 | h1
          · exact h.2.2 t' (mem_allTasks.mpr ⟨col, h1⟩)
          · rcases List.mem_singleton.mp h1 with rfl
            exact h.2.2 t (mem_allTasks.mpr ⟨c, htc⟩)
        · rw [if_neg hc1, container_setContainer] at hcol
          by_cases hc2 : col = c
          · subst hc2
            rw [if_pos rfl] at hcol
            exact h.2.2 t' (mem_allTasks.mpr ⟨col, (eraseFirst_sublist _ _).subset hcol⟩)
          · rw [if_neg hc2] at hcol
            exact h.2.2 t' (mem_allTasks.mpr ⟨col, hcol⟩)

theorem reachable_stInv {st : St} (h : Reachable st) : StInv st := by
  induction h with
  | init => exact stInv_init
  | add st input hr ih => exact stInv_addTask ih input
  | move st i target hr ih => exact stInv_moveTask ih i target
  | del st i hr ih => exact stInv_deleteTask ih i

end Kanban

namespace Kanban

theorem classify_taskRecord (c : Column) (t : TaskEl) :
    classifyRecord (taskRecord c.colId t) = .place t.id t.text c.colId := by
  cases c <;> rfl

theorem processRecords_append {as bs : List JVal} {d d' : Dom}
    (h : processRecords as d = (d', false)) :
    processRecords (as ++ bs) d = processRecords bs d' := by
  induction as generalizing d with
  | nil =>
    simp [processRecords] at h
    rw [h]
    rfl
  | cons v rest ih =>
    rw [List.cons_append] at *
    rw [processRecords] at h
    cases hc : classifyRecord v with
    | throw =>
      rw [hc] at h
      simp at h
    | skip =>
      rw [hc] at h
      rw [processRecords, hc]
      exact ih h
    | place i t s =>
      rw [hc] at h
      rw [processRecords, hc]
      exact ih h

theorem processRecords_column (c : Column) (ts : List TaskEl) :
    ∀ (d : Dom), (∀ t ∈ ts, ColOk c t) →
      processRecords (ts.map (taskRecord c.colId)) d =
        (d.setContainer c (d.container c ++ ts), false) := by
  induction ts with
  | nil =>
    intro d _
    obtain ⟨A, B, C⟩ := d
    cases c <;> simp [processRecords, Dom.setContainer, Dom.container]
  | cons t rest ih =>
    intro d h
    obtain ⟨hco1, hco2⟩ := h t (List.mem_cons_self t rest)
    have hrest : ∀ x ∈ rest, ColOk c x := fun x hx => h x (List.mem_cons_of_mem _ hx)
    obtain ⟨tid, ttext, tlc, tds⟩ := t
    simp only [TaskEl.lastColumn] at hco1
    simp only [TaskEl.doneStyled] at hco2
    subst hco1
    subst hco2
    rw [List.map_cons, processRecords, classify_taskRecord]
    cases c
    · dsimp only [Column.colId] at ih hrest ⊢
      rw [show placeLoadedTask d tid ttext "todo" =
          { d with todoTasks := d.todoTasks ++ [⟨tid, ttext, "todo", false⟩] } from rfl]
      rw [ih _ hrest]
      dsimp only [Dom.setContainer, Dom.container]
      rw [List.append_assoc]
      rfl
    · dsimp only [Column.colId] at ih hrest ⊢
      rw [show placeLoadedTask d tid ttext "inprogress" =
          { d with inprogressTasks := d.inprogressTasks ++ [⟨tid, ttext, "inprogress", false⟩] } from rfl]
      rw [ih _ hrest]
      dsimp only [Dom.setContainer, Dom.container]
      rw [List.append_assoc]
      rfl
    · dsimp only [Column.colId] at ih hrest ⊢
      rw [show placeLoadedTask d tid ttext "done" =
          { d with doneTasks := d.doneTasks ++ [⟨tid, ttext, "done", true⟩] } from rfl]
      rw [ih _ hrest]
      dsimp only [Dom.setContainer, Dom.container]
      rw [List.append_assoc]
      rfl

end Kanban

namespace Kanban

theorem processRecords_boardRecords {d : Dom} (hinv : DomInv d) :
    processRecords (boardRecords d) Dom.empty = (d, false) := by
  have hA : processRecords (d.todoTasks.map (taskRecord "todo")) Dom.empty
      = ((⟨d.todoTasks, [], []⟩ : Dom), false) :=
    processRecords_column .todo d.todoTasks Dom.empty (hinv .todo)
  have hB : processRecords (d.inprogressTasks.map (taskRecord "inprogress"))
      ⟨d.todoTasks, [], []⟩ = ((⟨d.todoTasks, d.inprogressTasks, []⟩ : Dom), false) :=
    processRecords_column .inprogress d.inprogressTasks ⟨d.todoTasks, [], []⟩ (hinv .inprogress)
  have hC : processRecords (d.doneTasks.map (taskRecord "done"))
      ⟨d.todoTasks, d.inprogressTasks, []⟩
      = ((⟨d.todoTasks, d.inprogressTasks, d.doneTasks⟩ : Dom), false) :=
    processRecords_column .done d.doneTasks ⟨d.todoTasks, d.inprogressTasks, []⟩ (hinv .done)
  have hAB : processRecords (d.todoTasks.map (taskRecord "todo") ++
      d.inprogressTasks.map (taskRecord "inprogress")) Dom.empty
      = ((⟨d.todoTasks, d.inprogressTasks, []⟩ : Dom), false) := by
    rw [processRecords_append hA, hB]
  rw [boardRecords, processRecords_append hAB, hC]

theorem load_of_save {d : Dom} (hinv : DomInv d) :
    loadTasksFromLocalStorage (some (saveTasksToLocalStorage d)) =
      (d, some (saveTasksToLocalStorage d)) := by
  have hshape : loadTasksFromLocalStorage (some (saveTasksToLocalStorage d)) =
      (if (processRecords (boardRecords d) Dom.empty).2 then
        ((processRecords (boardRecords d) Dom.empty).1, none)
      else ((processRecords (boardRecords d) Dom.empty).1,
        some (.val (.arr (boardRecords d))))) := rfl
  rw [hshape, processRecords_boardRecords hinv]
  simp [saveTasksToLocalStorage]

end Kanban

namespace Kanban

theorem colId_eq_done {c : Column} : c.colId = "done" ↔ c = .done := by
  cases c <;> simp [Column.colId]

theorem setContainer_container (d : Dom) (c : Column) :
    d.setContainer c (d.container c) = d := by
  cases c <;> rfl

theorem nodup_column_ids {d : Dom} (h : d.allIds.Nodup) (c : Column) :
    ((d.container c).map TaskEl.id).Nodup := by
  rw [allIds_eq] at h
  rcases List.nodup_append.mp h with ⟨hAB, hC, _⟩
  rcases List.nodup_append.mp hAB with ⟨hA, hB, _⟩
  cases c
  · exact hA
  · exact hB
  · exact hC

theorem column_ids_disjoint {d : Dom} (h : d.allIds.Nodup) {c c' : Column}
    (hne : ¬ c = c') {i : String} (hic : i ∈ (d.container c).map TaskEl.id) :
    i ∉ (d.container c').map TaskEl.id := by
  rw [allIds_eq] at h
  rcases List.nodup_append.mp h with ⟨hAB, hC, hABC⟩
  rcases List.nodup_append.mp hAB with ⟨hA, hB, hABd⟩
  cases c <;> cases c' <;> (try exact absurd rfl hne)
  · exact hABd hic
  · exact fun hc => hABC (List.mem_append.mpr (Or.inl hic)) hc
  · exact fun hc => hABd hc hic
  · exact fun hc => hABC (List.mem_append.mpr (Or.inr hic)) hc
  · exact fun hc => hABC (List.mem_append.mpr (Or.inl hc)) hic
  · exact fun hc => hABC (List.mem_append.mpr (Or.inr hc)) hic

end Kanban

namespace Kanban

/-- C1 counterexample: the claim says a persisted record whose column is the
unrecognized identifier "archived" is skipped and contributes no task, so a
slot with one well-formed record and one "archived" record loads exactly one
task.  In fact the code's fallback appends the "archived" record to the todo
container, so two tasks load and the malformed one IS defaulted into todo. -/
theorem C1_counterexample :
    (loadTasksFromLocalStorage (some (.val (.arr
        [.obj [("id", .str "task-1"), ("text", .str "A"), ("status", .str "done")],
         .obj [("id", .str "task-2"), ("text", .str "B"),
           ("status", .str "archived")]])))).1.allTasks.length = 2 ∧
      (loadTasksFromLocalStorage (some (.val (.arr
        [.obj [("id", .str "task-1"), ("text", .str "A"), ("status", .str "done")],
         .obj [("id", .str "task-2"), ("text", .str "B"),
           ("status", .str "archived")]])))).1.todoTasks
        = [⟨"task-2", "B", "todo", false⟩] :=
  ⟨rfl, rfl⟩

/-- C1 (amended): the loader accepts a record exactly when its id, text and
status are string-typed (emptiness is not checked); a record whose column is
one of the three known identifiers goes to that column, and a record with an
unrecognized column is not skipped but appended to todo with a warning, while
a record lacking a string field is skipped. -/
theorem C1_record_validation :
    (∀ i t s : String,
      (loadTasksFromLocalStorage (some (.val (.arr
          [.obj [("id", .str i), ("text", .str t), ("status", .str s)]])))).1 =
        (if s = "inprogress" then ⟨[], [⟨i, t, s, false⟩], []⟩
         else if s = "done" then ⟨[], [], [⟨i, t, s, true⟩]⟩
         else ⟨[⟨i, t, "todo", false⟩], [], []⟩ : Dom)) ∧
    (∀ i s : String,
      (loadTasksFromLocalStorage (some (.val (.arr
          [.obj [("id", .str i), ("status", .str s)]])))).1 = Dom.empty) := by
  refine ⟨fun i t s => ?_, fun i s => rfl⟩
  show placeLoadedTask Dom.empty i t s = _
  by_cases h1 : s = "todo"
  · subst h1
    rfl
  · by_cases h2 : s = "inprogress"
    · subst h2
      rfl
    · by_cases h3 : s = "done"
      · subst h3
        rfl
      · simp [placeLoadedTask, h1, h2, h3, Dom.empty]

/-- C4: an input whose trim is empty is rejected by addTask with no board
mutation, no persistence snapshot, no id allocation, and an unchanged task
count (the whole state is returned unchanged, with no task). -/
theorem C4_addTask_blank_rejected (st : St) (input : String)
    (h : jsTrim input = "") : addTask st input = (st, none) := by
  simp [addTask, h]

/-- C4 witness at the inputs named by the spec. -/
theorem C4_witness :
    jsTrim "" = "" ∧ jsTrim "   " = "" ∧
      addTask St.init "" = (St.init, none) ∧
      addTask St.init "   " = (St.init, none) :=
  ⟨by decide, by decide,
    C4_addTask_blank_rejected St.init "" (by decide),
    C4_addTask_blank_rejected St.init "   " (by decide)⟩

/-- C7: an unparseable slot, or a slot parsing to a non-array value, makes
the loader clear the slot and load nothing: the board starts empty, the
stored key is removed, and no exception escapes (the function returns
normally). -/
theorem C7_corrupt_slot_recovery :
    loadTasksFromLocalStorage (some .unparseable) = (Dom.empty, none) ∧
      ∀ v : JVal, v.isArr = false →
        loadTasksFromLocalStorage (some (.val v)) = (Dom.empty, none) := by
  refine ⟨rfl, fun v hv => ?_⟩
  cases v <;> first | rfl | simp [JVal.isArr] at hv

/-- C7 witness: a persisted single number yields an empty board and a cleared
slot. -/
theorem C7_witness :
    (JVal.num 5).isArr = false ∧
      loadTasksFromLocalStorage (some (.val (.num 5))) = (Dom.empty, none) :=
  ⟨rfl, C7_corrupt_slot_recovery.2 (.num 5) rfl⟩

/-- C9 counterexample: the claim says loading any snapshot yields at most one
task per id; a snapshot with two records sharing the id "a" actually loads
two tasks with that id. -/
theorem C9_counterexample :
    (loadTasksFromLocalStorage (some (.val (.arr
        [.obj [("id", .str "a"), ("text", .str "x"), ("status", .str "todo")],
         .obj [("id", .str "a"), ("text", .str "y"),
           ("status", .str "todo")]])))).1.allIds = ["a", "a"] ∧
      ¬ ((loadTasksFromLocalStorage (some (.val (.arr
        [.obj [("id", .str "a"), ("text", .str "x"), ("status", .str "todo")],
         .obj [("id", .str "a"), ("text", .str "y"),
           ("status", .str "todo")]])))).1.allIds.Nodup) :=
  ⟨rfl, by decide⟩

/-- C9 (amended): every add / move / delete operation preserves the board
invariant that no task id appears twice (each task sits in exactly one
container, and the id lists of the containers are jointly duplicate-free);
loading, by contrast, performs no deduplication, so the invariant survives a
load only when the accepted records carry pairwise distinct ids. -/
theorem C9_ops_preserve_unique_ids {st : St} (h : Reachable st) :
    st.dom.allIds.Nodup :=
  (reachable_stInv h).2.1

/-- C9 witness on a concrete reachable state. -/
theorem C9_witness :
    ((moveTask (addTask St.init "Write spec").1 "task-0" Column.done).1.dom.allIds).Nodup :=
  C9_ops_preserve_unique_ids
    (Reachable.move _ _ _ (Reachable.add _ _ Reachable.init))

end Kanban

namespace Calculator

/-- C10: with each input taken as its parsed value or 0 when empty or
non-numeric, the calculator displays ((D * (SP - Cp + B + 74) - 7400) /
1.20) / 100 (here over exact rationals, where the result is always finite
and the NaN/Infinity error branch cannot trigger), and the implementation's
divisor 1.20 disagrees with the 1.18 of the function's own documentation
comment. -/
theorem C10_calculator_formula :
    (∀ dIn spIn cpIn bIn : Option ℚ,
      calculateAndUpdateResults dIn spIn cpIn bIn =
        .value ((((dIn.getD 0) * ((spIn.getD 0) - (cpIn.getD 0) + (bIn.getD 0) + 74)
          - 7400) / (120 / 100)) / 100)) ∧
    calculateAndUpdateResults (some 1) none none none ≠
      .value (docCommentFormula 1 0 0 0) := by
  constructor
  · intro dIn spIn cpIn bIn
    simp [calculateAndUpdateResults, ratIsNaN, ratIsFinite]
  · intro heq
    simp [calculateAndUpdateResults, ratIsNaN, ratIsFinite, docCommentFormula,
      CalcDisplay.value.injEq] at heq
    norm_num at heq

end Calculator

namespace Kanban

/-- C2: for any board state reached from startup by a sequence of add, move
and delete operations, saving and then loading reconstructs exactly the same
board: every task's id, text and column survive, with no extras and no
omissions (the three containers come back equal), and the slot is left in
place. -/
theorem C2_round_trip {st : St} (h : Reachable st) :
    loadTasksFromLocalStorage (some (saveTasksToLocalStorage st.dom)) =
      (st.dom, some (saveTasksToLocalStorage st.dom)) :=
  load_of_save (reachable_stInv h).1

/-- C2 witness on a concrete board with tasks in todo and done. -/
theorem C2_witness :
    loadTasksFromLocalStorage (some (saveTasksToLocalStorage
        (moveTask (addTask (addTask St.init "Write spec").1 "Review").1
          "task-0" Column.done).1.dom)) =
      ((moveTask (addTask (addTask St.init "Write spec").1 "Review").1
          "task-0" Column.done).1.dom,
        some (saveTasksToLocalStorage
          (moveTask (addTask (addTask St.init "Write spec").1 "Review").1
            "task-0" Column.done).1.dom)) :=
  C2_round_trip
    (Reachable.move _ _ _ (Reachable.add _ _ (Reachable.add _ _ Reachable.init)))

/-- C3 counterexample: the claim says a move of a task to its current column
performs no mutation AND triggers no persistence snapshot; on the concrete
board holding the single task "task-0" in todo, dropping it on todo indeed
leaves the task set identical but DOES trigger a snapshot (the save counter
increments). -/
theorem C3_counterexample :
    findTask (addTask St.init "Write spec").1.dom "task-0" =
        some (Column.todo, ⟨"task-0", "Write spec", "todo", false⟩) ∧
      (moveTask (addTask St.init "Write spec").1 "task-0" Column.todo).1.dom =
        (addTask St.init "Write spec").1.dom ∧
      (moveTask (addTask St.init "Write spec").1 "task-0" Column.todo).1.saveCount =
        (addTask St.init "Write spec").1.saveCount + 1 :=
  ⟨rfl, rfl, rfl⟩

/-- C3 (amended): dropping an existing task on its current column is a
no-op on the task set — the board is byte-for-byte identical, no confetti
fires, and the id counter is untouched — but it DOES trigger a persistence
snapshot: save runs unconditionally on every handled drop, so the save count
increments and the (unchanged) board is rewritten to storage. -/
theorem C3_moveTask_same_column {st : St} (h : Reachable st) {i : String}
    {c : Column} {t : TaskEl} (hf : findTask st.dom i = some (c, t)) :
    moveTask st i c =
      (⟨st.dom, some (saveTasksToLocalStorage st.dom), st.saveCount + 1,
        st.nextId⟩, .moved false) := by
  have hco := (reachable_stInv h).1 c t (findTask_eq_some hf).1
  have hti : t.id = i := (findTask_eq_some hf).2
  have hfl := findTask_findInList hf
  have hmoved : (⟨t.id, t.text, c.colId, c == Column.done⟩ : TaskEl) = t := by
    obtain ⟨tid, ttext, tlc, tds⟩ := t
    obtain ⟨h1, h2⟩ := hco
    simp only [TaskEl.lastColumn] at h1
    simp only [TaskEl.doneStyled] at h2
    rw [h1, h2]
  have hconf : (c == Column.done && t.lastColumn != "done") = false := by
    rcases hco with ⟨h1, h2⟩
    cases c <;> simp [h1, Column.colId]
  simp only [moveTask, hf]
  rw [if_pos trivial]
  rw [hmoved, replaceFirst_self hfl, setContainer_container, hconf]

/-- C3 witness on the concrete one-task board. -/
theorem C3_witness :
    moveTask (addTask St.init "Write spec").1 "task-0" Column.todo =
      (⟨(addTask St.init "Write spec").1.dom,
        some (saveTasksToLocalStorage (addTask St.init "Write spec").1.dom),
        (addTask St.init "Write spec").1.saveCount + 1,
        (addTask St.init "Write spec").1.nextId⟩, .moved false) :=
  C3_moveTask_same_column (Reachable.add _ _ Reachable.init) rfl

/-- C5: adding any input whose trim is non-empty creates a task whose text is
the trimmed input, with a freshly generated id different from every id on the
board, appends it to the todo listing, and triggers a persistence
snapshot. -/
theorem C5_addTask_valid {st : St} (h : Reachable st) {input : String}
    (hne : ¬ jsTrim input = "") :
    ∃ tk : TaskEl, (addTask st input).2 = some tk ∧ tk.text = jsTrim input ∧
      tk.id ∉ st.dom.allIds ∧ tk ∈ listByColumn (addTask st input).1.dom Column.todo ∧
      (addTask st input).1.saveCount = st.saveCount + 1 := by
  refine ⟨⟨generateId st.nextId, jsTrim input, "todo", false⟩, ?_, rfl, ?_, ?_, ?_⟩
  · simp [addTask, hne]
  · exact generateId_fresh (reachable_stInv h)
  · simp [addTask, hne, listByColumn, Dom.container]
  · simp [addTask, hne]

/-- C5 witness: adding "  Write spec " to the empty board. -/
theorem C5_witness :
    ¬ jsTrim "  Write spec " = "" ∧
      ∃ tk : TaskEl, (addTask St.init "  Write spec ").2 = some tk ∧
        tk.text = jsTrim "  Write spec " ∧ tk.id ∉ St.init.dom.allIds ∧
        tk ∈ listByColumn (addTask St.init "  Write spec ").1.dom Column.todo ∧
        (addTask St.init "  Write spec ").1.saveCount = St.init.saveCount + 1 :=
  ⟨by decide, C5_addTask_valid Reachable.init (by decide)⟩

/-- C6: on a drop of an existing task, the confetti (completed) signal fires
exactly when the target column is done and the task's current column is not
done: every such transition fires it, and a drop on any other target, or of a
task already in done, does not. -/
theorem C6_confetti_iff {st : St} (h : Reachable st) {i : String} {c : Column}
    {t : TaskEl} (hf : findTask st.dom i = some (c, t)) (target : Column) :
    (moveTask st i target).2 = .moved true ↔ (target = .done ∧ ¬ c = .done) := by
  have hco := (reachable_stInv h).1 c t (findTask_eq_some hf).1
  have h2 : (moveTask st i target).2 =
      .moved (target == Column.done && t.lastColumn != "done") := by
    simp only [moveTask, hf]
  rw [h2, MoveRes.moved.injEq, Bool.and_eq_true, beq_iff_eq, bne_iff_ne, hco.1]
  rw [ne_eq, colId_eq_done]

/-- C6 witness: moving the todo task "task-0" to done fires the signal. -/
theorem C6_witness :
    (moveTask (addTask St.init "Write spec").1 "task-0" Column.done).2 =
      .moved true :=
  (C6_confetti_iff (Reachable.add _ _ Reachable.init)
      (show findTask (addTask St.init "Write spec").1.dom "task-0" =
        some (Column.todo, ⟨"task-0", "Write spec", "todo", false⟩) from rfl)
      Column.done).mpr ⟨rfl, by decide⟩

/-- C8: deleting a task id present on the board removes it from every
column's listing and triggers a persistence snapshot; deleting it again, or
deleting any id not on the board, reports not-found, performs no mutation,
and triggers no snapshot. -/
theorem C8_deleteTask {st : St} (h : Reachable st) {i : String}
    (hi : i ∈ st.dom.allIds) :
    (deleteTask st i).2 = true ∧
      (∀ c : Column, i ∉ (listByColumn (deleteTask st i).1.dom c).map TaskEl.id) ∧
      (deleteTask st i).1.saveCount = st.saveCount + 1 ∧
      deleteTask (deleteTask st i).1 i = ((deleteTask st i).1, false) ∧
      (∀ j, j ∉ st.dom.allIds → deleteTask st j = (st, false)) := by
  have hnodup := (reachable_stInv h).2.1
  cases hfind : findTask st.dom i with
  | none => exact absurd hi (findTask_eq_none.mp hfind)
  | some ct =>
    obtain ⟨c, t⟩ := ct
    have hti : t.id = i := (findTask_eq_some hfind).2
    have htc : t ∈ st.dom.container c := (findTask_eq_some hfind).1
    have hic : i ∈ (st.dom.container c).map TaskEl.id :=
      List.mem_map.mpr ⟨t, htc, hti⟩
    have hout : ∀ col : Column,
        i ∉ ((st.dom.setContainer c (eraseFirst (st.dom.container c) i)).container
          col).map TaskEl.id := by
      intro col
      rw [container_setContainer]
      by_cases hcc : col = c
      · subst hcc
        rw [if_pos rfl]
        exact not_mem_ids_eraseFirst (nodup_column_ids hnodup col)
      · rw [if_neg hcc]
        exact column_ids_disjoint hnodup (fun he => hcc he.symm) hic
    have hdel : deleteTask st i =
        (⟨st.dom.setContainer c (eraseFirst (st.dom.container c) i),
          some (saveTasksToLocalStorage
            (st.dom.setContainer c (eraseFirst (st.dom.container c) i))),
          st.saveCount + 1, st.nextId⟩, true) := by
      simp [deleteTask, hfind]
    have hgone : findTask
        (st.dom.setContainer c (eraseFirst (st.dom.container c) i)) i = none := by
      rw [findTask_eq_none, allIds_eq]
      intro hmem
      rcases List.mem_append.mp hmem with h1 | h1
      · rcases List.mem_append.mp h1 with h2 | h2
        · exact hout .todo h2
        · exact hout .inprogress h2
      · exact hout .done h1
    refine ⟨?_, ?_, ?_, ?_, ?_⟩
    · rw [hdel]
    · intro col
      rw [hdel]
      simpa [listByColumn] using hout col
    · rw [hdel]
    · rw [hdel]
      simp [deleteTask, hgone]
    · intro j hj
      simp [deleteTask, findTask_eq_none.mpr hj]

/-- C8 witness: deleting "task-0" from the one-task board succeeds and a
second delete reports not-found with no further change. -/
theorem C8_witness :
    "task-0" ∈ (addTask St.init "Write spec").1.dom.allIds ∧
      (deleteTask (addTask St.init "Write spec").1 "task-0").2 = true ∧
      deleteTask (deleteTask (addTask St.init "Write spec").1 "task-0").1 "task-0" =
        ((deleteTask (addTask St.init "Write spec").1 "task-0").1, false) :=
  ⟨by decide,
    (C8_deleteTask (Reachable.add _ _ Reachable.init) (by decide)).1,
    (C8_deleteTask (Reachable.add _ _ Reachable.init) (by decide)).2.2.2.1⟩

end Kanban
